import Mathlib

/-
  Verification of the coverage-driven test-suite augmentation engine in
  tackle-test-generator-cli, src/tkltest/generate/unit/augment.py
  (the incremental-delta variant).

  The embedding models the module faithfully:
  * pure data (coverage totals, deltas) as Lean structures over Nat/Int;
  * the external collaborator coverage_util.get_delta_coverage as an oracle
    parameter returning Except (a subprocess.CalledProcessError is .error);
  * the live base test directory as an explicit list of test-class names,
    threaded through both passes together with a log of add/remove operations;
  * Python local-variable semantics of __augment_ctd_test_suite, including the
    fact that coverage_delta / augmented_coverage are assigned only inside the
    try block while the acceptance check sits outside it.
-/

namespace Tkltest

/-- A test class is identified by its file path (a string). -/
abbrev TestClass := String

/-- The coverage dictionary returned by coverage_util for one suite run:
covered and total counts for the instruction, branch, line and method metrics. -/
structure CoverageTotals where
  instruction_covered : Nat
  instruction_total : Nat
  branch_covered : Nat
  branch_total : Nat
  line_covered : Nat
  line_total : Nat
  method_covered : Nat
  method_total : Nat
deriving DecidableEq

/-- The coverage-delta dictionary returned by coverage_util.get_delta_coverage.
Deltas are differences of covered counts, hence integers: the spec requires the
design to tolerate zero and, in pathological tool failures, negative values. -/
structure CoverageDelta where
  instruction_cov_delta : Int
  branch_cov_delta : Int
deriving DecidableEq

/-- The raw-coverage snapshot file passed to a merge call as ctd_raw_cov_file:
either the original base snapshot (CTD-guided + JACOCO_SUFFIX_FOR_AUGMENTATION)
or the running merged file (JACOCO_MERGED_DATA_FOR_AUGMENTATION). -/
inductive RawCovFile where
  | ctdGuided
  | merged
deriving DecidableEq

/-- Oracle for coverage_util.get_delta_coverage: given the test class, the
snapshot file used as merge baseline, the baseline coverage totals and the
remove_merged_cov_file flag, it either returns (coverage_delta, total_coverage)
or fails with a process-execution error (.error, a CalledProcessError). -/
abbrev GetDeltaCoverage :=
  TestClass → RawCovFile → CoverageTotals → Bool →
    Except Unit (CoverageDelta × CoverageTotals)

/-- One operation performed on the live base test directory. -/
inductive DirOp where
  | add (t : TestClass)
  | remove (t : TestClass)
deriving DecidableEq

/-- Python dict assignment d[k] = v on an insertion-ordered association list:
overwrites the value at an existing key in place, otherwise appends. -/
def dictInsert (t : TestClass) (d : CoverageDelta) :
    List (TestClass × CoverageDelta) → List (TestClass × CoverageDelta)
  | [] => [(t, d)]
  | (t2, d2) :: rest =>
      if t2 = t then (t2, d) :: rest else (t2, d2) :: dictInsert t d rest

/-- State of pass 1 (__compute_tests_with_coverage_gain): the
tests_with_coverage_gain dict, the two running totals, and the live base test
directory together with the log of directory operations performed so far.
The source performs no add or remove during this pass (both calls are
commented out), which the embedding reflects. -/
structure Pass1State where
  tests_with_coverage_gain : List (TestClass × CoverageDelta)
  total_inst_cov_gain : Int
  total_branch_cov_gain : Int
  dir : List TestClass
  dirOps : List DirOp
deriving DecidableEq

/-- One iteration of the pass-1 loop body (augment.py lines 346-383): call
get_delta_coverage for the test class against the immutable original base
snapshot (ctd_raw_cov_file = CTD-guided, base_coverage = base_ctd_coverage,
remove_merged_cov_file = True); on success keep the class iff
instruction_cov_delta > 0 or branch_cov_delta > 0; on CalledProcessError log
and skip. -/
def pass1Step (get_delta_coverage : GetDeltaCoverage)
    (base_ctd_coverage : CoverageTotals) (s : Pass1State)
    (test_class : TestClass) : Pass1State :=
  match get_delta_coverage test_class RawCovFile.ctdGuided base_ctd_coverage true with
  | .ok (coverage_delta, _total_coverage) =>
      if 0 < coverage_delta.instruction_cov_delta ∨ 0 < coverage_delta.branch_cov_delta then
        { s with
            tests_with_coverage_gain :=
              dictInsert test_class coverage_delta s.tests_with_coverage_gain
            total_inst_cov_gain :=
              s.total_inst_cov_gain + coverage_delta.instruction_cov_delta
            total_branch_cov_gain :=
              s.total_branch_cov_gain + coverage_delta.branch_cov_delta }
      else s
  | .error _ => s

/-- Pass 1, __compute_tests_with_coverage_gain: fold the loop body over the
augmentation pool, starting from an empty dict and zero totals, with the live
directory contents dir passed through. -/
def compute_tests_with_coverage_gain (get_delta_coverage : GetDeltaCoverage)
    (test_class_augment_pool : List TestClass)
    (base_ctd_coverage : CoverageTotals) (dir : List TestClass) : Pass1State :=
  test_class_augment_pool.foldl (pass1Step get_delta_coverage base_ctd_coverage)
    { tests_with_coverage_gain := []
      total_inst_cov_gain := 0
      total_branch_cov_gain := 0
      dir := dir
      dirOps := [] }

/-- Combined coverage gain of one dict entry: instruction delta plus branch
delta (the grouping key of __group_tests_by_coverage_gain). -/
def gainOf (e : TestClass × CoverageDelta) : Int :=
  e.2.instruction_cov_delta + e.2.branch_cov_delta

/-- Python membership test g in grouped.keys() on the grouping dict. -/
def hasGroupKey : List (Int × List TestClass) → Int → Bool
  | [], _ => false
  | (g2, _) :: rest, g => g2 = g || hasGroupKey rest g

/-- Python grouped[g].append(t): extend the list stored at key g in place. -/
def addToGroup (g : Int) (t : TestClass) :
    List (Int × List TestClass) → List (Int × List TestClass)
  | [] => []
  | (g2, ts) :: rest =>
      if g2 = g then (g2, ts ++ [t]) :: rest else (g2, ts) :: addToGroup g t rest

/-- Python grouped[g]: dict lookup on the grouping dict (defaulting to the
empty group for an absent key, which pass 2 never queries). -/
def lookupGroup : List (Int × List TestClass) → Int → List TestClass
  | [], _ => []
  | (g2, ts) :: rest, g => if g2 = g then ts else lookupGroup rest g

/-- One iteration of the __group_tests_by_coverage_gain loop: compute the
combined gain of the entry; if the gain is not yet a key, bind it to the
one-element group and append the gain to cov_gain_values, otherwise append
the test class to the existing group. -/
def groupStep (s : List (Int × List TestClass) × List Int)
    (e : TestClass × CoverageDelta) :
    List (Int × List TestClass) × List Int :=
  let test_cov_gain := gainOf e
  if hasGroupKey s.1 test_cov_gain then
    (addToGroup test_cov_gain e.1 s.1, s.2)
  else
    (s.1 ++ [(test_cov_gain, [e.1])], s.2 ++ [test_cov_gain])

/-- Insert one value into a descending-sorted list of gains (a step of the
effect of cov_gain_values.sort with reverse order). -/
def insertDesc (x : Int) : List Int → List Int
  | [] => [x]
  | y :: ys => if y ≤ x then x :: y :: ys else y :: insertDesc x ys

/-- Sorting of cov_gain_values in descending order (list.sort with reverse
order in the source), realized as insertion sort. -/
def sortDesc : List Int → List Int
  | [] => []
  | x :: xs => insertDesc x (sortDesc xs)

/-- __group_tests_by_coverage_gain: fold the grouping step over the dict of
tests with coverage gain (in its insertion order, which is pool order), then
reverse-sort the collected gain values. Returns the grouping dict and the
sorted gain list. -/
def group_tests_by_coverage_gain (tests_with_coverage_gain : List (TestClass × CoverageDelta)) :
    List (Int × List TestClass) × List Int :=
  let p := tests_with_coverage_gain.foldl groupStep ([], [])
  (p.1, sortDesc p.2)

/-- The order in which pass 2 visits candidates: gain values in reverse-sorted
order, and inside one gain group the insertion order of the group list. -/
def visit_order (tests_with_coverage_gain : List (TestClass × CoverageDelta)) :
    List TestClass :=
  let r := group_tests_by_coverage_gain tests_with_coverage_gain
  r.2.flatMap (lookupGroup r.1)

/-- Invariant of the grouping fold relating the grouping dict and the gain
list to the prefix of dict entries already processed. -/
structure GroupInv (processed : List (TestClass × CoverageDelta))
    (grouped : List (Int × List TestClass)) (gains : List Int) : Prop where
  key_mem : ∀ g, hasGroupKey grouped g = true ↔ g ∈ gains
  lookup_eq : ∀ g, lookupGroup grouped g =
    (processed.filter (fun e => gainOf e = g)).map Prod.fst
  gains_mem : ∀ g, g ∈ gains ↔ g ∈ processed.map gainOf
  gains_nodup : gains.Nodup

/-- State of pass 2 (__augment_ctd_test_suite), mirroring the Python local
variables of the loop plus the live directory, operation logs and bookkeeping
of the flags passed to and results obtained from each merge call.
coverage_delta and the crashed flag model Python local-variable semantics:
coverage_delta is unbound (none) until the first successful merge call, and
reading it while unbound raises an unhandled NameError (crashed). -/
structure Pass2State where
  dir : List TestClass
  dirOps : List DirOp
  curr_coverage : CoverageTotals
  augmented_coverage : CoverageTotals
  coverage_delta : Option CoverageDelta
  added_test_classes : Nat
  accepted : List TestClass
  first : Bool
  current_raw_cov_file : RawCovFile
  flagsLog : List Bool
  successLog : List Bool
  acceptLog : List Bool
  crashed : Bool
deriving DecidableEq

/-- Initial pass-2 state: live directory as left by pass 1, running baseline
and augmented coverage initialized to the base coverage, coverage_delta
unbound, first = True, merge baseline file = the original base snapshot. -/
def pass2Init (base_ctd_coverage : CoverageTotals) (dir : List TestClass) : Pass2State :=
  { dir := dir
    dirOps := []
    curr_coverage := base_ctd_coverage
    augmented_coverage := base_ctd_coverage
    coverage_delta := none
    added_test_classes := 0
    accepted := []
    first := true
    current_raw_cov_file := RawCovFile.ctdGuided
    flagsLog := []
    successLog := []
    acceptLog := []
    crashed := false }

/-- The acceptance check of pass 2 (lines 452-458), which in the source sits
OUTSIDE the try block: it reads coverage_delta, raising NameError if no merge
call has succeeded yet; otherwise it keeps the candidate iff the (possibly
stale) delta has a positive instruction or branch component, advancing the
baseline to the (possibly stale) augmented_coverage, and removes the candidate
from the live directory otherwise. Afterwards current_raw_cov_file is set to
the merged data file (line 458, executed on every non-crashing iteration). -/
def pass2Check (s : Pass2State) (test_class : TestClass) : Pass2State :=
  match s.coverage_delta with
  | none => { s with crashed := true }
  | some d =>
      let s2 :=
        if 0 < d.instruction_cov_delta ∨ 0 < d.branch_cov_delta then
          { s with
              curr_coverage := s.augmented_coverage
              added_test_classes := s.added_test_classes + 1
              accepted := s.accepted ++ [test_class]
              acceptLog := s.acceptLog ++ [true] }
        else
          { s with
              dir := s.dir.filter (fun t => t ≠ test_class)
              dirOps := s.dirOps ++ [DirOp.remove test_class]
              acceptLog := s.acceptLog ++ [false] }
      { s2 with current_raw_cov_file := RawCovFile.merged }

/-- One iteration of the pass-2 loop body (lines 431-458): add the candidate
to the live base directory; call get_delta_coverage against the current
running snapshot file and the current baseline totals, passing first as
remove_merged_cov_file; on success bind coverage_delta / augmented_coverage
and clear first; on CalledProcessError log and keep the previous bindings;
then run the acceptance check. A crashed state is absorbing (the NameError
propagates and no further iteration runs). -/
def pass2Step (get_delta_coverage : GetDeltaCoverage)
    (s : Pass2State) (test_class : TestClass) : Pass2State :=
  if s.crashed then s else
  let s1 := { s with
      dir := s.dir ++ [test_class]
      dirOps := s.dirOps ++ [DirOp.add test_class] }
  match get_delta_coverage test_class s1.current_raw_cov_file s1.curr_coverage s1.first with
  | .ok (coverage_delta, augmented_coverage) =>
      pass2Check
        { s1 with
            flagsLog := s1.flagsLog ++ [s1.first]
            successLog := s1.successLog ++ [true]
            coverage_delta := some coverage_delta
            augmented_coverage := augmented_coverage
            first := false }
        test_class
  | .error _ =>
      pass2Check
        { s1 with
            flagsLog := s1.flagsLog ++ [s1.first]
            successLog := s1.successLog ++ [false] }
        test_class

/-- Pass 2, __augment_ctd_test_suite: group the pass-1 survivors by combined
gain, then fold the loop body over the groups in reverse-sorted gain order,
visiting candidates inside one group in insertion (pool) order. -/
def augment_ctd_test_suite (get_delta_coverage : GetDeltaCoverage)
    (tests_with_coverage_gain : List (TestClass × CoverageDelta))
    (base_ctd_coverage : CoverageTotals) (dir : List TestClass) : Pass2State :=
  (visit_order tests_with_coverage_gain).foldl (pass2Step get_delta_coverage)
    (pass2Init base_ctd_coverage dir)

/-- The error raised by Python when a division has a zero divisor. -/
inductive PyError where
  | zeroDivision
deriving DecidableEq

/-- Python true division a / b on numbers: raises ZeroDivisionError when the
divisor is zero, otherwise yields the exact quotient. -/
def pyDiv (a b : Rat) : Except PyError Rat :=
  if b = 0 then .error PyError.zeroDivision else .ok (a / b)

/-- __compute_coverage_efficiency (lines 235-273): takes the coverage dict
returned by coverage_util.get_coverage_for_test_suite (None on failure) and
the test-method count of the directory; returns (None, None, None) when no
coverage was obtained, and otherwise computes
inst_cov_rate = instruction_covered / instruction_total and
inst_cov_efficiency = inst_cov_rate / test_method_count, then formats a status
line that also divides the branch, line and method covered counts by their
totals. Every division is a Python division and may raise ZeroDivisionError,
which propagates out of the function. -/
def compute_coverage_efficiency (test_coverage : Option CoverageTotals)
    (test_method_count : Nat) :
    Except PyError (Option (CoverageTotals × Nat × Rat)) :=
  match test_coverage with
  | none => .ok none
  | some cov =>
      match pyDiv (cov.instruction_covered : Rat) (cov.instruction_total : Rat) with
      | .error e => .error e
      | .ok inst_cov_rate =>
          match pyDiv inst_cov_rate (test_method_count : Rat) with
          | .error e => .error e
          | .ok inst_cov_efficiency =>
              match pyDiv (cov.branch_covered : Rat) (cov.branch_total : Rat) with
              | .error e => .error e
              | .ok _branch_rate =>
                  match pyDiv (cov.line_covered : Rat) (cov.line_total : Rat) with
                  | .error e => .error e
                  | .ok _line_rate =>
                      match pyDiv (cov.method_covered : Rat) (cov.method_total : Rat) with
                      | .error e => .error e
                      | .ok _method_rate =>
                          .ok (some (cov, test_method_count, inst_cov_efficiency))

/-- Environment-supplied facts about one candidate of the augmentation pool:
whether its source text contains the sentinel
EvoSuite did not generate any tests, the coverage dict obtained when the
combined suite base-plus-candidate is run (None when coverage collection
fails), and the test-method count of the combined directory at that moment. -/
structure CandidateInfo where
  has_sentinel : Bool
  coverage : Option CoverageTotals
  method_count : Nat
deriving DecidableEq

/-- How a run of the pool-building phase (or of the whole augmentation) can
terminate abnormally: sys.exit(1) after a coverage-collection failure, an
uncaught Python exception (ZeroDivisionError), or the NameError raised by the
pass-2 acceptance check when coverage_delta is unbound. -/
inductive RunFailure where
  | fatalExit
  | pyError (e : PyError)
  | nameError
deriving DecidableEq

/-- Result of __compute_base_and_augmenting_tests_coverage: the pool of
candidate test classes as returned (all non-scaffolding files of the evosuite
directory), the base CTD coverage, the run-level has_coverage signal, and the
list of candidates that were actually executed against the base suite. -/
structure BuilderResult where
  augmentation_test_pool : List TestClass
  ctd_test_coverage : CoverageTotals
  has_coverage : Bool
  executed : List TestClass
deriving DecidableEq

/-- The candidate loop of __compute_base_and_augmenting_tests_coverage
(lines 202-224): for each candidate, skip it without executing when its source
contains the no-tests sentinel; otherwise add it to the live directory, run
the combined suite through __compute_coverage_efficiency, exit fatally when no
coverage was obtained, record whether a positive covered-instruction count was
seen, and remove the candidate again. -/
def builderLoop : List (TestClass × CandidateInfo) → Bool → List TestClass →
    Except RunFailure (Bool × List TestClass)
  | [], has_coverage, executed => .ok (has_coverage, executed)
  | (test, info) :: rest, has_coverage, executed =>
      if info.has_sentinel then builderLoop rest has_coverage executed
      else
        match compute_coverage_efficiency info.coverage info.method_count with
        | .error e => .error (RunFailure.pyError e)
        | .ok none => .error RunFailure.fatalExit
        | .ok (some (test_coverage, _, _)) =>
            builderLoop rest
              (has_coverage || decide (0 < test_coverage.instruction_covered))
              (executed ++ [test])

/-- __compute_base_and_augmenting_tests_coverage (lines 136-232): compute the
base CTD coverage and efficiency (fatal exit when it cannot be obtained), then
run every non-sentinel candidate of the pool once, and return the pool, the
base coverage and the has_coverage signal. The pool list handed in stands for
the non-scaffolding files enumerated from the evosuite directory; note the
source returns this list unchanged, sentinel entries included. -/
def compute_base_and_augmenting_tests_coverage
    (ctd_coverage_result : Option CoverageTotals) (ctd_method_count : Nat)
    (pool : List (TestClass × CandidateInfo)) :
    Except RunFailure BuilderResult :=
  match compute_coverage_efficiency ctd_coverage_result ctd_method_count with
  | .error e => .error (RunFailure.pyError e)
  | .ok none => .error RunFailure.fatalExit
  | .ok (some (ctd_test_coverage, _, _)) =>
      match builderLoop pool false [] with
      | .error e => .error e
      | .ok (has_coverage, executed) =>
          .ok { augmentation_test_pool := pool.map Prod.fst
                ctd_test_coverage := ctd_test_coverage
                has_coverage := has_coverage
                executed := executed }

/-- Result of augment_with_code_coverage as observable by the caller: the
returned boolean, the count of test classes added, and the accepted classes. -/
structure AugmentResult where
  success : Bool
  added_test_classes : Nat
  accepted : List TestClass
deriving DecidableEq

/-- augment_with_code_coverage (lines 26-133): run the pool-building phase;
when has_coverage is false report it by returning False without adding any
test; otherwise run pass 1 and pass 2 over the live directory dir, propagate a
pass-2 NameError, compute the final summary efficiency
final_inst_cov_rate / final_test_method_count (both Python divisions, each
able to raise ZeroDivisionError), and return True with the added count. -/
def augment_with_code_coverage (get_delta_coverage : GetDeltaCoverage)
    (ctd_coverage_result : Option CoverageTotals) (ctd_method_count : Nat)
    (pool : List (TestClass × CandidateInfo))
    (final_test_method_count : Nat) (dir : List TestClass) :
    Except RunFailure AugmentResult :=
  match compute_base_and_augmenting_tests_coverage ctd_coverage_result
      ctd_method_count pool with
  | .error e => .error e
  | .ok r =>
      if r.has_coverage = false then
        .ok { success := false, added_test_classes := 0, accepted := [] }
      else
        let p1 := compute_tests_with_coverage_gain get_delta_coverage
          r.augmentation_test_pool r.ctd_test_coverage dir
        let p2 := augment_ctd_test_suite get_delta_coverage
          p1.tests_with_coverage_gain r.ctd_test_coverage p1.dir
        if p2.crashed then .error RunFailure.nameError
        else
          match pyDiv (p2.augmented_coverage.instruction_covered : Rat)
              (p2.augmented_coverage.instruction_total : Rat) with
          | .error e => .error (RunFailure.pyError e)
          | .ok final_inst_cov_rate =>
              match pyDiv final_inst_cov_rate (final_test_method_count : Rat) with
              | .error e => .error (RunFailure.pyError e)
              | .ok _final_cov_efficiency =>
                  .ok { success := true
                        added_test_classes := p2.added_test_classes
                        accepted := p2.accepted }

/-- Invariant tying the remove_merged_cov_file flags passed to the pass-2
merge calls to the success history: the flag of call i is true exactly when
every earlier call failed, and the live first flag records whether no call has
succeeded yet. -/
def Pass2FlagInv (s : Pass2State) : Prop :=
  s.flagsLog.length = s.successLog.length ∧
  (s.first = true ↔ ∀ b ∈ s.successLog, b = false) ∧
  ∀ i b, s.flagsLog[i]? = some b →
    (b = true ↔ ∀ x ∈ s.successLog.take i, x = false)

/-- A concrete base coverage: 50/100 instructions, 10/20 branches, 30/60
lines, 5/10 methods. -/
def baseCov : CoverageTotals :=
  { instruction_covered := 50, instruction_total := 100
    branch_covered := 10, branch_total := 20
    line_covered := 30, line_total := 60
    method_covered := 5, method_total := 10 }

/-- A mixed-sign delta as a pathological merge tool can report it:
instruction delta 1, branch delta -2, combined gain -1. -/
def mixedDelta : CoverageDelta :=
  { instruction_cov_delta := 1, branch_cov_delta := -2 }

/-- Merged totals consistent with mixedDelta over baseCov: one more covered
instruction, two fewer covered branches. -/
def mixedTotals : CoverageTotals :=
  { instruction_covered := 51, instruction_total := 100
    branch_covered := 8, branch_total := 20
    line_covered := 30, line_total := 60
    method_covered := 5, method_total := 10 }

/-- Oracle whose merge calls always succeed with the mixed-sign delta. -/
def gdcMixed : GetDeltaCoverage := fun _ _ _ _ => .ok (mixedDelta, mixedTotals)

/-- A plainly positive delta: instruction delta 5, branch delta 0. -/
def posDelta : CoverageDelta :=
  { instruction_cov_delta := 5, branch_cov_delta := 0 }

/-- Merged totals consistent with posDelta over baseCov. -/
def augCov : CoverageTotals :=
  { instruction_covered := 55, instruction_total := 100
    branch_covered := 10, branch_total := 20
    line_covered := 30, line_total := 60
    method_covered := 5, method_total := 10 }

/-- Oracle whose merge calls always succeed with the positive delta. -/
def gdcPos : GetDeltaCoverage := fun _ _ _ _ => .ok (posDelta, augCov)

/-- A zero delta: the merge succeeded but added no coverage. -/
def zeroDelta : CoverageDelta :=
  { instruction_cov_delta := 0, branch_cov_delta := 0 }

/-- Oracle whose merge calls always fail with a CalledProcessError. -/
def gdcFailAll : GetDeltaCoverage := fun _ _ _ _ => .error ()

/-- Oracle for which the merge of t1 succeeds with a positive delta and every
other merge fails. -/
def gdcSecondFails : GetDeltaCoverage := fun t _ _ _ =>
  if t = "t1" then .ok (posDelta, augCov) else .error ()

/-- Oracle for which the merge of t1 succeeds with a zero delta (so t1 is
rejected) and every other merge succeeds with a positive delta. -/
def gdcRejectFirst : GetDeltaCoverage := fun t _ _ _ =>
  if t = "t1" then .ok (zeroDelta, baseCov) else .ok (posDelta, augCov)

/-- A two-entry pass-1 survivor dict: t1 with one-shot gain 5, t2 with
one-shot gain 1, so pass 2 visits t1 before t2. -/
def twoGainEntries : List (TestClass × CoverageDelta) :=
  [("t1", { instruction_cov_delta := 5, branch_cov_delta := 0 }),
   ("t2", { instruction_cov_delta := 1, branch_cov_delta := 0 })]

/-- A candidate whose source text contains the sentinel
EvoSuite did not generate any tests. -/
def sentinelInfo : CandidateInfo :=
  { has_sentinel := true, coverage := none, method_count := 0 }

/-- A candidate that executes normally and covers instructions. -/
def coveringInfo : CandidateInfo :=
  { has_sentinel := false, coverage := some baseCov, method_count := 7 }

/-- Values already in the dict satisfying P still satisfy P after a
dictInsert of a value satisfying P. -/
theorem dictInsert_forall {P : CoverageDelta → Prop} {m : List (TestClass × CoverageDelta)}
    (hm : ∀ e ∈ m, P e.2) {t : TestClass} {d : CoverageDelta} (hd : P d) :
    ∀ e ∈ dictInsert t d m, P e.2 := by
  induction m with
  | nil =>
      intro e he
      simp only [dictInsert, List.mem_singleton] at he
      simpa [he] using hd
  | cons p tl ih =>
      obtain ⟨t2, d2⟩ := p
      intro e he
      simp only [dictInsert] at he
      by_cases h : t2 = t
      · rw [if_pos h] at he
        rcases List.mem_cons.mp he with he | he
        · simpa [he] using hd
        · exact hm e (List.mem_cons_of_mem _ he)
      · rw [if_neg h] at he
        rcases List.mem_cons.mp he with he | he
        · exact hm e (by simp [he])
        · exact ih (fun e2 he2 => hm e2 (List.mem_cons_of_mem _ he2)) e he

/-- pass1Step leaves the live directory and the directory-operation log
untouched. -/
theorem pass1Step_dir (gdc : GetDeltaCoverage) (base : CoverageTotals)
    (s : Pass1State) (t : TestClass) :
    (pass1Step gdc base s t).dir = s.dir ∧ (pass1Step gdc base s t).dirOps = s.dirOps := by
  unfold pass1Step
  cases hg : gdc t RawCovFile.ctdGuided base true with
  | error e => exact ⟨rfl, rfl⟩
  | ok p =>
      obtain ⟨d, tot⟩ := p
      by_cases h : 0 < d.instruction_cov_delta ∨ 0 < d.branch_cov_delta <;> simp [h]

/-- Invariant propagation for the pass-1 fold: any property of all stored
delta values that holds initially and is preserved by the keep condition
holds of the final dict. -/
theorem pass1_foldl_entries (gdc : GetDeltaCoverage) (base : CoverageTotals)
    {P : CoverageDelta → Prop} (hP : ∀ d : CoverageDelta,
      (0 < d.instruction_cov_delta ∨ 0 < d.branch_cov_delta) → P d) :
    ∀ (pool : List TestClass) (s0 : Pass1State),
      (∀ e ∈ s0.tests_with_coverage_gain, P e.2) →
      ∀ e ∈ (pool.foldl (pass1Step gdc base) s0).tests_with_coverage_gain, P e.2 := by
  intro pool
  induction pool with
  | nil => intro s0 h0; simpa using h0
  | cons t ts ih =>
      intro s0 h0
      refine ih (pass1Step gdc base s0 t) ?_
      unfold pass1Step
      cases hg : gdc t RawCovFile.ctdGuided base true with
      | error e => exact h0
      | ok p =>
          obtain ⟨d, tot⟩ := p
          by_cases h : 0 < d.instruction_cov_delta ∨ 0 < d.branch_cov_delta
          · simp only [if_pos h]
            exact dictInsert_forall h0 (hP d h)
          · simpa [h] using h0

theorem mem_insertDesc {a x : Int} {l : List Int} :
    a ∈ insertDesc x l ↔ a = x ∨ a ∈ l := by
  induction l with
  | nil => simp [insertDesc]
  | cons y ys ih =>
      by_cases h : y ≤ x
      · simp [insertDesc, h]
      · simp only [insertDesc, if_neg h, List.mem_cons, ih]
        tauto

theorem pairwise_gt_insertDesc {x : Int} {l : List Int}
    (h : l.Pairwise (· > ·)) (hx : x ∉ l) : (insertDesc x l).Pairwise (· > ·) := by
  induction l with
  | nil => simp [insertDesc]
  | cons y ys ih =>
      rcases List.pairwise_cons.mp h with ⟨hy, hys⟩
      have hxy : x ≠ y := fun hexy => hx (by simp [hexy])
      have hxys : x ∉ ys := fun hm => hx (List.mem_cons_of_mem _ hm)
      by_cases hle : y ≤ x
      · have hgt : x > y := lt_of_le_of_ne hle (fun he => hxy he.symm)
        rw [insertDesc, if_pos hle]
        refine List.pairwise_cons.mpr ⟨?_, h⟩
        intro z hz
        rcases List.mem_cons.mp hz with hz | hz
        · exact hz ▸ hgt
        · exact lt_trans (hy z hz) hgt
      · rw [insertDesc, if_neg hle]
        refine List.pairwise_cons.mpr ⟨?_, ih hys hxys⟩
        intro z hz
        rcases mem_insertDesc.mp hz with hz | hz
        · exact hz ▸ lt_of_not_le hle
        · exact hy z hz

theorem mem_sortDesc {a : Int} {l : List Int} : a ∈ sortDesc l ↔ a ∈ l := by
  induction l with
  | nil => simp [sortDesc]
  | cons x xs ih => simp [sortDesc, mem_insertDesc, ih]

theorem pairwise_gt_sortDesc {l : List Int} (h : l.Nodup) :
    (sortDesc l).Pairwise (· > ·) := by
  induction l with
  | nil => simp [sortDesc]
  | cons x xs ih =>
      rcases List.nodup_cons.mp h with ⟨hx, hxs⟩
      exact pairwise_gt_insertDesc (ih hxs) (fun hm => hx (mem_sortDesc.mp hm))

theorem hasGroupKey_addToGroup (g : Int) (t : TestClass)
    (grouped : List (Int × List TestClass)) (g2 : Int) :
    hasGroupKey (addToGroup g t grouped) g2 = hasGroupKey grouped g2 := by
  induction grouped with
  | nil => rfl
  | cons p rest ih =>
      obtain ⟨g3, ts⟩ := p
      by_cases h : g3 = g
      · simp [addToGroup, h, hasGroupKey]
      · simp [addToGroup, h, hasGroupKey, ih]

theorem lookupGroup_addToGroup_same {grouped : List (Int × List TestClass)} {g : Int}
    (h : hasGroupKey grouped g = true) (t : TestClass) :
    lookupGroup (addToGroup g t grouped) g = lookupGroup grouped g ++ [t] := by
  induction grouped with
  | nil => simp [hasGroupKey] at h
  | cons p rest ih =>
      obtain ⟨g3, ts⟩ := p
      by_cases hg : g3 = g
      · simp [addToGroup, hg, lookupGroup]
      · simp only [hasGroupKey, Bool.or_eq_true, decide_eq_true_eq] at h
        rcases h with h | h
        · exact absurd h hg
        · simp [addToGroup, hg, lookupGroup, ih h]

theorem lookupGroup_addToGroup_ne {g g2 : Int} (hne : g2 ≠ g) (t : TestClass)
    (grouped : List (Int × List TestClass)) :
    lookupGroup (addToGroup g t grouped) g2 = lookupGroup grouped g2 := by
  have hne2 : g ≠ g2 := fun he => hne he.symm
  induction grouped with
  | nil => rfl
  | cons p rest ih =>
      obtain ⟨g3, ts⟩ := p
      by_cases hg : g3 = g
      · subst hg
        simp [addToGroup, lookupGroup, hne2]
      · by_cases hg2 : g3 = g2
        · simp [addToGroup, hg, lookupGroup, hg2, hne]
        · simp [addToGroup, hg, lookupGroup, hg2, ih]

theorem lookupGroup_of_not_hasKey {grouped : List (Int × List TestClass)} {g : Int}
    (h : hasGroupKey grouped g = false) : lookupGroup grouped g = [] := by
  induction grouped with
  | nil => rfl
  | cons p rest ih =>
      obtain ⟨g3, ts⟩ := p
      simp only [hasGroupKey, Bool.or_eq_false_iff, decide_eq_false_iff_not] at h
      simp [lookupGroup, h.1, ih h.2]

theorem hasGroupKey_append_single (grouped : List (Int × List TestClass))
    (g : Int) (ts : List TestClass) (g2 : Int) :
    hasGroupKey (grouped ++ [(g, ts)]) g2 = (hasGroupKey grouped g2 || decide (g = g2)) := by
  induction grouped with
  | nil => simp [hasGroupKey]
  | cons p rest ih =>
      obtain ⟨g3, ts3⟩ := p
      simp [hasGroupKey, ih, Bool.or_assoc]

theorem lookupGroup_append_single_ne {g g2 : Int} (hne : g2 ≠ g)
    (grouped : List (Int × List TestClass)) (ts : List TestClass) :
    lookupGroup (grouped ++ [(g, ts)]) g2 = lookupGroup grouped g2 := by
  have hne2 : g ≠ g2 := fun he => hne he.symm
  induction grouped with
  | nil => simp [lookupGroup, hne2]
  | cons p rest ih =>
      obtain ⟨g3, ts3⟩ := p
      by_cases hg2 : g3 = g2
      · simp [lookupGroup, hg2]
      · simp [lookupGroup, hg2, ih]

theorem lookupGroup_append_single_same {grouped : List (Int × List TestClass)} {g : Int}
    (h : hasGroupKey grouped g = false) (ts : List TestClass) :
    lookupGroup (grouped ++ [(g, ts)]) g = ts := by
  induction grouped with
  | nil => simp [lookupGroup]
  | cons p rest ih =>
      obtain ⟨g3, ts3⟩ := p
      simp only [hasGroupKey, Bool.or_eq_false_iff, decide_eq_false_iff_not] at h
      simp [lookupGroup, h.1, ih h.2]

theorem groupStep_inv {processed : List (TestClass × CoverageDelta)}
    {grouped : List (Int × List TestClass)} {gains : List Int}
    (h : GroupInv processed grouped gains) (e : TestClass × CoverageDelta) :
    GroupInv (processed ++ [e]) (groupStep (grouped, gains) e).1
      (groupStep (grouped, gains) e).2 := by
  by_cases hk : hasGroupKey grouped (gainOf e) = true
  · have hmem : gainOf e ∈ gains := (h.key_mem _).mp hk
    simp only [groupStep, hk, if_true]
    refine ⟨?_, ?_, ?_, h.gains_nodup⟩
    · intro g
      rw [hasGroupKey_addToGroup]
      exact h.key_mem g
    · intro g
      by_cases hg : g = gainOf e
      · subst hg
        rw [lookupGroup_addToGroup_same hk, h.lookup_eq, List.filter_append,
          List.map_append]
        simp
      · have hg2 : gainOf e ≠ g := fun he => hg he.symm
        rw [lookupGroup_addToGroup_ne hg, h.lookup_eq, List.filter_append]
        have : List.filter (fun e2 => decide (gainOf e2 = g)) [e] = [] := by
          simp [hg2]
        simp [this]
    · intro g
      rw [h.gains_mem, List.map_append]
      by_cases hg : g = gainOf e
      · subst hg
        have := (h.gains_mem _).mp hmem
        simp [this]
      · simp [List.mem_append, hg]
  · have hmem : gainOf e ∉ gains := fun hm => hk ((h.key_mem _).mpr hm)
    have hfil : processed.filter (fun e2 => gainOf e2 = gainOf e) = [] := by
      rw [List.filter_eq_nil_iff]
      intro a ha
      simp only [decide_eq_true_eq]
      intro hga
      exact hmem ((h.gains_mem _).mpr (List.mem_map.mpr ⟨a, ha, hga⟩))
    simp only [groupStep, hk, if_false, Bool.false_eq_true]
    refine ⟨?_, ?_, ?_, ?_⟩
    · intro g
      rw [hasGroupKey_append_single]
      simp only [Bool.or_eq_true, decide_eq_true_eq, List.mem_append,
        List.mem_singleton]
      rw [h.key_mem g]
      constructor
      · rintro (hg | hg)
        · exact Or.inl hg
        · exact Or.inr hg.symm
      · rintro (hg | hg)
        · exact Or.inl hg
        · exact Or.inr hg.symm
    · intro g
      by_cases hg : g = gainOf e
      · subst hg
        rw [lookupGroup_append_single_same (Bool.not_eq_true _ ▸ hk),
          List.filter_append, hfil]
        simp
      · have hg2 : gainOf e ≠ g := fun he => hg he.symm
        rw [lookupGroup_append_single_ne hg, h.lookup_eq, List.filter_append]
        have : List.filter (fun e2 => decide (gainOf e2 = g)) [e] = [] := by
          simp [hg2]
        simp [this]
    · intro g
      simp only [List.mem_append, List.mem_singleton, List.map_append,
        List.map_cons, List.map_nil]
      rw [h.gains_mem g]
    · refine List.nodup_append.mpr ⟨h.gains_nodup, List.nodup_singleton _, ?_⟩
      intro a ha
      simp only [List.mem_singleton]
      intro he
      exact hmem (he ▸ ha)

theorem groupFold_inv (m : List (TestClass × CoverageDelta)) :
    ∀ (processed : List (TestClass × CoverageDelta))
      (grouped : List (Int × List TestClass)) (gains : List Int),
      GroupInv processed grouped gains →
      GroupInv (processed ++ m) (m.foldl groupStep (grouped, gains)).1
        (m.foldl groupStep (grouped, gains)).2 := by
  induction m with
  | nil => intro processed grouped gains h; simpa using h
  | cons e rest ih =>
      intro processed grouped gains h
      have hstep := groupStep_inv h e
      have := ih (processed ++ [e]) (groupStep (grouped, gains) e).1
        (groupStep (grouped, gains) e).2 hstep
      simpa [List.append_assoc] using this

/-- Concatenating, over a duplicate-free list of keys covering all key values
of a list, the sublists of elements with each key, permutes the list. -/
theorem flatMap_filter_perm {α : Type} (f : α → Int) :
    ∀ (gs : List Int) (l : List α), gs.Nodup → (∀ x ∈ l, f x ∈ gs) →
      (gs.flatMap (fun g => l.filter (fun x => f x = g))).Perm l := by
  intro gs
  induction gs with
  | nil =>
      intro l _ hcov
      have : l = [] := List.eq_nil_iff_forall_not_mem.mpr
        (fun x hx => by simpa using hcov x hx)
      simp [this]
  | cons g gs ih =>
      intro l hnd hcov
      rcases List.nodup_cons.mp hnd with ⟨hg, hgs⟩
      have hrest : gs.flatMap (fun g2 => l.filter (fun x => f x = g2)) =
          gs.flatMap (fun g2 =>
            (l.filter (fun x => !decide (f x = g))).filter (fun x => f x = g2)) := by
        refine List.flatMap_congr ?_
        intro g2 hg2
        rw [List.filter_filter]
        refine (List.filter_congr ?_).symm
        intro x hx
        by_cases hfx : f x = g2
        · have hne2 : ¬g2 = g := fun he => hg (he ▸ hg2)
          simp [hfx, hne2]
        · simp [hfx]
      have hcov2 : ∀ x ∈ l.filter (fun x => !decide (f x = g)), f x ∈ gs := by
        intro x hx
        rcases List.mem_filter.mp hx with ⟨hxl, hxp⟩
        have hne : ¬f x = g := by simpa using hxp
        rcases List.mem_cons.mp (hcov x hxl) with h | h
        · exact absurd h hne
        · exact h
      have heq : ((g :: gs).flatMap (fun g2 => l.filter (fun x => f x = g2)))
          = l.filter (fun x => f x = g) ++
            gs.flatMap (fun g2 =>
              (l.filter (fun x => !decide (f x = g))).filter (fun x => f x = g2)) := by
        rw [List.flatMap_cons, hrest]
      rw [heq]
      exact ((ih _ hgs hcov2).append_left _).trans (List.filter_append_perm _ l)

/-- Every value stored by pass 1 has a strictly positive instruction delta or
a strictly positive branch delta (the keep condition of line 369). -/
theorem pass1_entries_positive (gdc : GetDeltaCoverage) (base : CoverageTotals)
    (pool : List TestClass) (dir : List TestClass) :
    ∀ e ∈ (compute_tests_with_coverage_gain gdc pool base dir).tests_with_coverage_gain,
      0 < e.2.instruction_cov_delta ∨ 0 < e.2.branch_cov_delta := by
  unfold compute_tests_with_coverage_gain
  exact pass1_foldl_entries gdc base (fun d h => h) pool _ (by intro e he; simp at he)

/-- Adding an element to a list it does not occur in and then filtering it
out restores the original list (the add-then-remove directory dance). -/
theorem filter_ne_append_self {l : List TestClass} {t : TestClass} (h : t ∉ l) :
    (l ++ [t]).filter (fun x => x ≠ t) = l := by
  rw [List.filter_append]
  have h1 : ([t] : List TestClass).filter (fun x => x ≠ t) = [] := by simp
  have h2 : l.filter (fun x => x ≠ t) = l := by
    rw [List.filter_eq_self]
    intro a ha
    simp only [ne_eq, decide_not, Bool.not_eq_true', decide_eq_false_iff_not]
    exact fun he => h (he ▸ ha)
  rw [h1, h2, List.append_nil]

/-- The pass-1 fold preserves the live directory and the operation log. -/
theorem pass1_foldl_dir (gdc : GetDeltaCoverage) (base : CoverageTotals) :
    ∀ (pool : List TestClass) (s0 : Pass1State),
      (pool.foldl (pass1Step gdc base) s0).dir = s0.dir ∧
      (pool.foldl (pass1Step gdc base) s0).dirOps = s0.dirOps := by
  intro pool
  induction pool with
  | nil => intro s0; exact ⟨rfl, rfl⟩
  | cons t ts ih =>
      intro s0
      have hstep := pass1Step_dir gdc base s0 t
      have hrest := ih (pass1Step gdc base s0 t)
      exact ⟨hstep.1 ▸ hrest.1, hstep.2 ▸ hrest.2⟩

/-- The grouping invariant holds of the empty accumulator. -/
theorem groupInv_init : GroupInv [] [] [] := by
  refine ⟨?_, ?_, ?_, List.nodup_nil⟩
  · intro g; simp [hasGroupKey]
  · intro g; simp [lookupGroup]
  · intro g; simp

/-- The grouping invariant holds of the full grouping fold. -/
theorem groupInv_of_fold (m : List (TestClass × CoverageDelta)) :
    GroupInv m (m.foldl groupStep ([], [])).1 (m.foldl groupStep ([], [])).2 := by
  simpa using groupFold_inv m [] [] [] groupInv_init

/-- Every test class visited by pass 2 is a key of the survivor dict. -/
theorem visit_order_mem {m : List (TestClass × CoverageDelta)} {t : TestClass}
    (ht : t ∈ visit_order m) : t ∈ m.map Prod.fst := by
  have inv := groupInv_of_fold m
  simp only [visit_order, group_tests_by_coverage_gain, List.mem_flatMap] at ht
  obtain ⟨g, hg, htg⟩ := ht
  rw [inv.lookup_eq g] at htg
  rcases List.mem_map.mp htg with ⟨e, he, hfst⟩
  exact hfst ▸ List.mem_map_of_mem _ (List.mem_filter.mp he).1

/-- The acceptance check never touches the flag, success and first fields. -/
theorem pass2Check_bookkeeping (s : Pass2State) (t : TestClass) :
    (pass2Check s t).flagsLog = s.flagsLog ∧
    (pass2Check s t).successLog = s.successLog ∧
    (pass2Check s t).first = s.first := by
  unfold pass2Check
  cases s.coverage_delta with
  | none => exact ⟨rfl, rfl, rfl⟩
  | some d =>
      by_cases h : 0 < d.instruction_cov_delta ∨ 0 < d.branch_cov_delta <;> simp [h]

/-- The acceptance check leaves the accepted list unchanged or appends the
visited class. -/
theorem pass2Check_accepted (s : Pass2State) (t : TestClass) :
    (pass2Check s t).accepted = s.accepted ∨
    (pass2Check s t).accepted = s.accepted ++ [t] := by
  unfold pass2Check
  cases s.coverage_delta with
  | none => exact Or.inl rfl
  | some d =>
      by_cases h : 0 < d.instruction_cov_delta ∨ 0 < d.branch_cov_delta
      · right; simp [h]
      · left; simp [h]

/-- One pass-2 iteration leaves the accepted list unchanged or appends the
visited class. -/
theorem pass2Step_accepted (gdc : GetDeltaCoverage) (s : Pass2State) (t : TestClass) :
    (pass2Step gdc s t).accepted = s.accepted ∨
    (pass2Step gdc s t).accepted = s.accepted ++ [t] := by
  unfold pass2Step
  split
  · exact Or.inl rfl
  · dsimp only
    split
    · rcases pass2Check_accepted _ t with h | h
      · left; simpa using h
      · right; simpa using h
    · rcases pass2Check_accepted _ t with h | h
      · left; simpa using h
      · right; simpa using h

/-- Classes accepted by the pass-2 fold come from the initial accepted list
or from the visited list. -/
theorem pass2_foldl_accepted (gdc : GetDeltaCoverage) :
    ∀ (l : List TestClass) (s0 : Pass2State) (t : TestClass),
      t ∈ (l.foldl (pass2Step gdc) s0).accepted → t ∈ s0.accepted ∨ t ∈ l := by
  intro l
  induction l with
  | nil => intro s0 t ht; exact Or.inl (by simpa using ht)
  | cons x xs ih =>
      intro s0 t ht
      rcases ih (pass2Step gdc s0 x) t ht with h | h
      · rcases pass2Step_accepted gdc s0 x with he | he
        · rw [he] at h
          exact Or.inl h
        · rw [he] at h
          rcases List.mem_append.mp h with h2 | h2
          · exact Or.inl h2
          · simp only [List.mem_singleton] at h2
            exact Or.inr (by simp [h2])
      · exact Or.inr (List.mem_cons_of_mem _ h)

/-- Appending one call record (flag f0, success sb) preserves the flag
invariant data, with the new first flag being false after a success. -/
theorem pass2FlagInv_append (F S : List Bool) (f0 sb : Bool)
    (hlen : F.length = S.length)
    (hfirst : f0 = true ↔ ∀ b ∈ S, b = false)
    (hidx : ∀ i b, F[i]? = some b → (b = true ↔ ∀ x ∈ S.take i, x = false)) :
    ((F ++ [f0]).length = (S ++ [sb]).length) ∧
    (((if sb then false else f0) : Bool) = true ↔ ∀ b ∈ S ++ [sb], b = false) ∧
    (∀ i b, (F ++ [f0])[i]? = some b →
      (b = true ↔ ∀ x ∈ (S ++ [sb]).take i, x = false)) := by
  refine ⟨by simp [hlen], ?_, ?_⟩
  · cases sb with
    | true =>
        rw [if_pos rfl]
        constructor
        · intro hcontra; exact absurd hcontra (by simp)
        · intro hall
          have := hall true (List.mem_append_right _ (by simp))
          exact absurd this (by simp)
    | false =>
        rw [if_neg (by simp)]
        rw [hfirst]
        constructor
        · intro hall b hb
          rcases List.mem_append.mp hb with hb | hb
          · exact hall b hb
          · simpa using hb
        · intro hall b hb
          exact hall b (List.mem_append_left _ hb)
  · intro i b hib
    rcases Nat.lt_trichotomy i F.length with hlt | heq | hgt
    · rw [List.getElem?_append_left hlt] at hib
      rw [List.take_append_of_le_length (le_of_lt (hlen ▸ hlt))]
      exact hidx i b hib
    · subst heq
      rw [List.getElem?_concat_length] at hib
      have hb : b = f0 := (Option.some.injEq _ _ ▸ hib).symm
      subst hb
      rw [hlen, List.take_append_of_le_length (le_refl _), List.take_length]
      exact hfirst
    · have hnone : (F ++ [f0])[i]? = none := by
        apply List.getElem?_eq_none
        simp only [List.length_append, List.length_singleton]
        omega
      rw [hnone] at hib
      exact absurd hib (by simp)

/-- The acceptance check preserves the flag invariant. -/
theorem pass2Check_flagInv (s : Pass2State) (t : TestClass)
    (h : Pass2FlagInv s) : Pass2FlagInv (pass2Check s t) := by
  obtain ⟨h1, h2, h3⟩ := h
  have hb := pass2Check_bookkeeping s t
  refine ⟨?_, ?_, ?_⟩
  · rw [hb.1, hb.2.1]; exact h1
  · rw [hb.2.2, hb.2.1]; exact h2
  · rw [hb.1, hb.2.1]; exact h3

/-- One pass-2 iteration preserves the flag invariant. -/
theorem pass2Step_flagInv (gdc : GetDeltaCoverage) (s : Pass2State) (t : TestClass)
    (h : Pass2FlagInv s) : Pass2FlagInv (pass2Step gdc s t) := by
  obtain ⟨hlen, hfirst, hidx⟩ := h
  unfold pass2Step
  split
  · exact ⟨hlen, hfirst, hidx⟩
  · dsimp only
    split
    · apply pass2Check_flagInv
      exact pass2FlagInv_append s.flagsLog s.successLog s.first true hlen hfirst hidx
    · apply pass2Check_flagInv
      exact pass2FlagInv_append s.flagsLog s.successLog s.first false hlen hfirst hidx

/-- The pass-2 fold preserves the flag invariant. -/
theorem pass2_foldl_flagInv (gdc : GetDeltaCoverage) :
    ∀ (l : List TestClass) (s0 : Pass2State),
      Pass2FlagInv s0 → Pass2FlagInv (l.foldl (pass2Step gdc) s0) := by
  intro l
  induction l with
  | nil => intro s0 h; exact h
  | cons x xs ih => intro s0 h; exact ih _ (pass2Step_flagInv gdc s0 x h)

/-- The flag invariant holds initially: no call made, first = true. -/
theorem pass2Init_flagInv (base : CoverageTotals) (dir : List TestClass) :
    Pass2FlagInv (pass2Init base dir) := by
  refine ⟨rfl, by simp [pass2Init], ?_⟩
  intro i b hib
  simp [pass2Init] at hib

/-- With a zero test-method count the efficiency computation on an obtained
coverage dict stops with ZeroDivisionError (either from the rate division
when the instruction total is zero, or from the efficiency division). -/
theorem cce_zero_count (cov : CoverageTotals) :
    compute_coverage_efficiency (some cov) 0 = .error PyError.zeroDivision := by
  unfold compute_coverage_efficiency
  by_cases h1 : (cov.instruction_total : Rat) = 0
  · simp [pyDiv, h1]
  · simp [pyDiv, h1]

/-- A successful efficiency computation passes the coverage dict through and
certifies that the method count and instruction total are nonzero. -/
theorem cce_ok_some {oc : Option CoverageTotals} {n : Nat}
    {c : CoverageTotals} {k : Nat} {e : Rat}
    (h : compute_coverage_efficiency oc n = .ok (some (c, k, e))) :
    oc = some c ∧ k = n ∧ n ≠ 0 ∧ c.instruction_total ≠ 0 := by
  cases oc with
  | none =>
      exfalso
      simp [compute_coverage_efficiency] at h
  | some cov =>
      unfold compute_coverage_efficiency at h
      dsimp only at h
      by_cases h1 : (cov.instruction_total : Rat) = 0
      · simp [pyDiv, h1] at h
      · by_cases h2 : (n : Rat) = 0
        · simp [pyDiv, h1, h2] at h
        · by_cases h3 : (cov.branch_total : Rat) = 0
          · simp [pyDiv, h1, h2, h3] at h
          · by_cases h4 : (cov.line_total : Rat) = 0
            · simp [pyDiv, h1, h2, h3, h4] at h
            · by_cases h5 : (cov.method_total : Rat) = 0
              · simp [pyDiv, h1, h2, h3, h4, h5] at h
              · unfold pyDiv at h
                rw [if_neg h1] at h
                dsimp only at h
                rw [if_neg h2] at h
                dsimp only at h
                rw [if_neg h3] at h
                dsimp only at h
                rw [if_neg h4] at h
                dsimp only at h
                rw [if_neg h5] at h
                dsimp only at h
                have hc : cov = c := by
                  have := congrArg (fun x => match x with
                    | Except.ok (some (y, _, _)) => y
                    | _ => cov) h
                  simpa using this
                have hk : n = k := by
                  have := congrArg (fun x => match x with
                    | Except.ok (some (_, y, _)) => y
                    | _ => n) h
                  simpa using this
                refine ⟨by rw [hc], hk.symm, ?_, ?_⟩
                · exact fun hn => h2 (by simp [hn])
                · exact fun ht => h1 (by rw [hc]; simp [ht])

/-- Specification of the builder candidate loop: the final has_coverage flag
is true iff it was already true or some non-sentinel candidate has a coverage
dict with a positive covered-instruction count, and every executed candidate
is either inherited or a non-sentinel entry of the pool. -/
theorem builderLoop_spec :
    ∀ (pool : List (TestClass × CandidateInfo)) (has : Bool) (ex : List TestClass)
      (hasF : Bool) (exF : List TestClass),
      builderLoop pool has ex = .ok (hasF, exF) →
      ((hasF = true ↔ has = true ∨ ∃ p ∈ pool, p.2.has_sentinel = false ∧
          ∃ c, p.2.coverage = some c ∧ 0 < c.instruction_covered) ∧
       (∀ t ∈ exF, t ∈ ex ∨ ∃ i2 : CandidateInfo, (t, i2) ∈ pool ∧
          i2.has_sentinel = false)) := by
  intro pool
  induction pool with
  | nil =>
      intro has ex hasF exF h
      simp only [builderLoop, Except.ok.injEq, Prod.mk.injEq] at h
      obtain ⟨hh, he⟩ := h
      subst hh; subst he
      constructor
      · simp
      · intro t ht; exact Or.inl ht
  | cons p rest ih =>
      obtain ⟨tc, info⟩ := p
      intro has ex hasF exF h
      by_cases hs : info.has_sentinel
      · rw [builderLoop, if_pos hs] at h
        obtain ⟨hiff, hex⟩ := ih has ex hasF exF h
        constructor
        · rw [hiff]
          constructor
          · rintro (hh | ⟨p2, hp2, hcond⟩)
            · exact Or.inl hh
            · exact Or.inr ⟨p2, List.mem_cons_of_mem _ hp2, hcond⟩
          · rintro (hh | ⟨p2, hp2, hcond⟩)
            · exact Or.inl hh
            · rcases List.mem_cons.mp hp2 with hp2 | hp2
              · exfalso
                rw [hp2] at hcond
                have hfalse : info.has_sentinel = false := hcond.1
                rw [hfalse] at hs
                exact absurd hs (by simp)
              · exact Or.inr ⟨p2, hp2, hcond⟩
        · intro t ht
          rcases hex t ht with h2 | ⟨i2, hi2, hsent⟩
          · exact Or.inl h2
          · exact Or.inr ⟨i2, List.mem_cons_of_mem _ hi2, hsent⟩
      · rw [builderLoop, if_neg hs] at h
        cases hcce : compute_coverage_efficiency info.coverage info.method_count with
        | error e => rw [hcce] at h; exact absurd h (by simp)
        | ok v =>
            cases v with
            | none => rw [hcce] at h; exact absurd h (by simp)
            | some w =>
                obtain ⟨test_coverage, k, eff⟩ := w
                rw [hcce] at h
                have hcov := (cce_ok_some hcce).1
                obtain ⟨hiff, hex⟩ :=
                  ih (has || decide (0 < test_coverage.instruction_covered))
                    (ex ++ [tc]) hasF exF h
                constructor
                · rw [hiff]
                  simp only [Bool.or_eq_true, decide_eq_true_eq]
                  constructor
                  · rintro ((hh | hpos) | ⟨p2, hp2, hcond⟩)
                    · exact Or.inl hh
                    · refine Or.inr ⟨(tc, info), List.mem_cons_self _ _, ?_, ?_⟩
                      · simpa using hs
                      · exact ⟨test_coverage, hcov, hpos⟩
                    · exact Or.inr ⟨p2, List.mem_cons_of_mem _ hp2, hcond⟩
                  · rintro (hh | ⟨p2, hp2, hcond⟩)
                    · exact Or.inl (Or.inl hh)
                    · rcases List.mem_cons.mp hp2 with hp2 | hp2
                      · subst hp2
                        obtain ⟨_, c, hcc, hcpos⟩ := hcond
                        rw [hcov] at hcc
                        have : test_coverage = c := by
                          simpa using hcc
                        exact Or.inl (Or.inr (this ▸ hcpos))
                      · exact Or.inr ⟨p2, hp2, hcond⟩
                · intro t ht
                  rcases hex t ht with h2 | ⟨i2, hi2, hsent⟩
                  · rcases List.mem_append.mp h2 with h3 | h3
                    · exact Or.inl h3
                    · simp only [List.mem_singleton] at h3
                      subst h3
                      exact Or.inr ⟨info, List.mem_cons_self _ _, by simpa using hs⟩
                  · exact Or.inr ⟨i2, List.mem_cons_of_mem _ hi2, hsent⟩

/-- Inversion of a successful pool-building run: the returned pool is the
full candidate list and the loop ran from an all-false accumulator. -/
theorem builder_ok_inv {ctdCov : Option CoverageTotals} {ctdCount : Nat}
    {pool : List (TestClass × CandidateInfo)} {r : BuilderResult}
    (h : compute_base_and_augmenting_tests_coverage ctdCov ctdCount pool = .ok r) :
    r.augmentation_test_pool = pool.map Prod.fst ∧
    builderLoop pool false [] = .ok (r.has_coverage, r.executed) := by
  unfold compute_base_and_augmenting_tests_coverage at h
  cases hcce : compute_coverage_efficiency ctdCov ctdCount with
  | error e => rw [hcce] at h; exact absurd h (by simp)
  | ok v =>
      cases v with
      | none => rw [hcce] at h; exact absurd h (by simp)
      | some w =>
          obtain ⟨ctc, k, eff⟩ := w
          rw [hcce] at h
          cases hloop : builderLoop pool false [] with
          | error e => rw [hloop] at h; exact absurd h (by simp)
          | ok q =>
              obtain ⟨has, ex⟩ := q
              rw [hloop] at h
              simp only [Except.ok.injEq] at h
              subst h
              exact ⟨rfl, rfl⟩

/-- In a pool with duplicate-free test-class names, the info attached to a
name is unique. -/
theorem nodup_keys_unique {pool : List (TestClass × CandidateInfo)}
    (hnd : (pool.map Prod.fst).Nodup) {t : TestClass} {a b : CandidateInfo}
    (ha : (t, a) ∈ pool) (hb : (t, b) ∈ pool) : a = b := by
  induction pool with
  | nil => exact absurd ha (List.not_mem_nil _)
  | cons p rest ih =>
      obtain ⟨t3, i3⟩ := p
      simp only [List.map_cons] at hnd
      rcases List.nodup_cons.mp hnd with ⟨hp1, hrest⟩
      rcases List.mem_cons.mp ha with ha1 | ha1 <;>
        rcases List.mem_cons.mp hb with hb1 | hb1
      · rw [← hb1] at ha1
        exact (Prod.ext_iff.mp ha1).2
      · exfalso
        apply hp1
        have ht : t = t3 := congrArg Prod.fst ha1
        rw [← ht]
        exact List.mem_map_of_mem Prod.fst hb1
      · exfalso
        apply hp1
        have ht : t = t3 := congrArg Prod.fst hb1
        rw [← ht]
        exact List.mem_map_of_mem Prod.fst ha1
      · exact ih hrest ha1 hb1

/-- C1 counterexample: with a pathological merge result of instruction delta 1
and branch delta -2 the combined one-shot gain is -1, yet pass 1 keeps the
candidate in tests_with_coverage_gain, because the source keep condition is
instruction_cov_delta > 0 or branch_cov_delta > 0, not a test of the combined
sum. -/
theorem pass1_keeps_candidate_with_nonpositive_combined_gain :
    ("t1", mixedDelta) ∈
      (compute_tests_with_coverage_gain gdcMixed ["t1"] baseCov
        []).tests_with_coverage_gain ∧
    mixedDelta.instruction_cov_delta + mixedDelta.branch_cov_delta ≤ 0 := by
  decide

/-- C1 (amended): pass 1 discards exactly the candidates whose instruction and
branch deltas are both non-positive; whenever the reported deltas of a kept
candidate are non-negative its combined gain is strictly positive (so with
well-formed merge results no candidate with non-positive combined gain
survives); and every candidate accepted by pass 2 is a key of the pass-1
survivor dict. -/
theorem pass1_filter_and_accepted_subset
    (gdc gdc2 : GetDeltaCoverage) (pool : List TestClass)
    (base base2 : CoverageTotals) (dir dir2 : List TestClass) :
    (∀ e ∈ (compute_tests_with_coverage_gain gdc pool base dir).tests_with_coverage_gain,
        (0 < e.2.instruction_cov_delta ∨ 0 < e.2.branch_cov_delta) ∧
        (0 ≤ e.2.instruction_cov_delta → 0 ≤ e.2.branch_cov_delta →
          0 < e.2.instruction_cov_delta + e.2.branch_cov_delta)) ∧
    (∀ t ∈ (augment_ctd_test_suite gdc2
          (compute_tests_with_coverage_gain gdc pool base dir).tests_with_coverage_gain
          base2 dir2).accepted,
        t ∈ (compute_tests_with_coverage_gain gdc pool base
          dir).tests_with_coverage_gain.map Prod.fst) := by
  constructor
  · intro e he
    have hpos := pass1_entries_positive gdc base pool dir e he
    refine ⟨hpos, fun hi hb => ?_⟩
    rcases hpos with h | h <;> omega
  · intro t ht
    unfold augment_ctd_test_suite at ht
    rcases pass2_foldl_accepted gdc2 _ _ t ht with h | h
    · exact absurd h (by simp [pass2Init])
    · exact visit_order_mem h

/-- C1 witness: instantiation of the amended theorem on a singleton pool with
an all-positive oracle. -/
theorem pass1_filter_and_accepted_subset_witness :
    ((0 < posDelta.instruction_cov_delta ∨ 0 < posDelta.branch_cov_delta) ∧
      (0 ≤ posDelta.instruction_cov_delta → 0 ≤ posDelta.branch_cov_delta →
        0 < posDelta.instruction_cov_delta + posDelta.branch_cov_delta)) ∧
    "t1" ∈ ((compute_tests_with_coverage_gain gdcPos ["t1"] baseCov
      []).tests_with_coverage_gain.map Prod.fst) := by
  refine ⟨(pass1_filter_and_accepted_subset gdcPos gdcPos ["t1"] baseCov baseCov [] []).1
      ("t1", posDelta) (by decide),
    (pass1_filter_and_accepted_subset gdcPos gdcPos ["t1"] baseCov baseCov [] []).2
      "t1" (by decide)⟩

/-- C2: in a pass-2 iteration whose merge call (made against the current
running snapshot file and the current baseline totals, not the original base)
succeeds with delta d and merged totals aug, the candidate is first added to
the live directory and is kept iff d has a strictly positive instruction or
branch component; on keep the baseline advances to aug and the added count
increments; otherwise the candidate is removed again and baseline and count
are unchanged. -/
theorem pass2_step_accepts_iff_positive_delta
    (gdc : GetDeltaCoverage) (s : Pass2State) (t : TestClass)
    (d : CoverageDelta) (aug : CoverageTotals)
    (hc : s.crashed = false) (hdir : t ∉ s.dir)
    (h : gdc t s.current_raw_cov_file s.curr_coverage s.first = .ok (d, aug)) :
    ((0 < d.instruction_cov_delta ∨ 0 < d.branch_cov_delta) →
      (pass2Step gdc s t).curr_coverage = aug ∧
      (pass2Step gdc s t).added_test_classes = s.added_test_classes + 1 ∧
      (pass2Step gdc s t).accepted = s.accepted ++ [t] ∧
      (pass2Step gdc s t).dir = s.dir ++ [t] ∧
      (pass2Step gdc s t).dirOps = s.dirOps ++ [DirOp.add t]) ∧
    (¬(0 < d.instruction_cov_delta ∨ 0 < d.branch_cov_delta) →
      (pass2Step gdc s t).curr_coverage = s.curr_coverage ∧
      (pass2Step gdc s t).added_test_classes = s.added_test_classes ∧
      (pass2Step gdc s t).accepted = s.accepted ∧
      (pass2Step gdc s t).dir = s.dir ∧
      (pass2Step gdc s t).dirOps = s.dirOps ++ [DirOp.add t, DirOp.remove t]) := by
  unfold pass2Step
  rw [if_neg (by simp [hc])]
  dsimp only
  rw [h]
  dsimp only
  unfold pass2Check
  dsimp only
  constructor
  · intro hpos
    rw [if_pos hpos]
    exact ⟨rfl, rfl, rfl, rfl, rfl⟩
  · intro hneg
    rw [if_neg hneg]
    refine ⟨rfl, rfl, rfl, ?_, by simp⟩
    exact filter_ne_append_self hdir

/-- C2 witness: instantiation of the step theorem on the initial state with a
positive-delta oracle. -/
theorem pass2_step_accepts_iff_positive_delta_witness :
    (pass2Step gdcPos (pass2Init baseCov []) "t1").curr_coverage = augCov ∧
    (pass2Step gdcPos (pass2Init baseCov []) "t1").added_test_classes = 0 + 1 := by
  have h := pass2_step_accepts_iff_positive_delta gdcPos (pass2Init baseCov []) "t1"
    posDelta augCov rfl (by simp [pass2Init]) rfl
  have h2 := h.1 (by decide)
  exact ⟨h2.1, h2.2.1⟩

/-- C3: the grouping phase partitions the survivor dict by exact combined
gain: the gain list is strictly descending, contains exactly the occurring
combined gains, each group lists exactly the candidates of that gain in dict
(pool) order, the flattened visit order is a permutation of the dict keys, and
pass 2 folds over precisely this visit order - a deterministic function of the
dict. -/
theorem grouping_orders_candidates_deterministically
    (m : List (TestClass × CoverageDelta)) :
    (group_tests_by_coverage_gain m).2.Pairwise (· > ·) ∧
    (∀ g : Int, g ∈ (group_tests_by_coverage_gain m).2 ↔ ∃ e ∈ m, gainOf e = g) ∧
    (∀ g : Int, lookupGroup (group_tests_by_coverage_gain m).1 g =
      (m.filter (fun e => gainOf e = g)).map Prod.fst) ∧
    (visit_order m).Perm (m.map Prod.fst) ∧
    (∀ (gdc : GetDeltaCoverage) (base : CoverageTotals) (dir : List TestClass),
      augment_ctd_test_suite gdc m base dir =
        (visit_order m).foldl (pass2Step gdc) (pass2Init base dir)) := by
  have inv := groupInv_of_fold m
  refine ⟨?_, ?_, ?_, ?_, fun gdc base dir => rfl⟩
  · simp only [group_tests_by_coverage_gain]
    exact pairwise_gt_sortDesc inv.gains_nodup
  · intro g
    simp only [group_tests_by_coverage_gain]
    rw [mem_sortDesc, inv.gains_mem g, List.mem_map]
  · intro g
    simp only [group_tests_by_coverage_gain]
    exact inv.lookup_eq g
  · have hfun : lookupGroup (m.foldl groupStep ([], [])).1 =
        fun g => (m.filter (fun e => gainOf e = g)).map Prod.fst :=
      funext inv.lookup_eq
    have hnodup : (sortDesc (m.foldl groupStep ([], [])).2).Nodup :=
      (pairwise_gt_sortDesc inv.gains_nodup).imp (fun hab => ne_of_gt hab)
    have hcov : ∀ e ∈ m, gainOf e ∈ sortDesc (m.foldl groupStep ([], [])).2 := by
      intro e he
      rw [mem_sortDesc, inv.gains_mem (gainOf e)]
      exact List.mem_map_of_mem gainOf he
    have hperm := flatMap_filter_perm gainOf (sortDesc (m.foldl groupStep ([], [])).2)
      m hnodup hcov
    have hrw : visit_order m = ((sortDesc (m.foldl groupStep ([], [])).2).flatMap
        (fun g => m.filter (fun e => gainOf e = g))).map Prod.fst := by
      simp only [visit_order, group_tests_by_coverage_gain]
      rw [hfun, List.map_flatMap]
    rw [hrw]
    exact hperm.map Prod.fst

/-- C4 counterexample: accepting a candidate whose merge reports instruction
delta 1 and branch delta -2 (consistent with its merged totals) makes the
running baseline lose covered branches: monotonicity fails for arbitrary
reported deltas. -/
theorem pass2_accept_can_decrease_branch_coverage :
    (augment_ctd_test_suite gdcMixed [("t1", mixedDelta)] baseCov
      []).added_test_classes = 1 ∧
    (augment_ctd_test_suite gdcMixed [("t1", mixedDelta)] baseCov
      []).curr_coverage.branch_covered < baseCov.branch_covered := by
  decide

/-- C4 (amended): when the merge call of a pass-2 iteration succeeds with
non-negative instruction and branch deltas that are consistent with the
returned merged totals, the running baseline after the iteration has
covered-instruction and covered-branch counts at least as large as before,
whether or not the candidate is accepted. -/
theorem pass2_accept_monotone_under_nonneg_deltas
    (gdc : GetDeltaCoverage) (s : Pass2State) (t : TestClass)
    (d : CoverageDelta) (aug : CoverageTotals)
    (hc : s.crashed = false)
    (h : gdc t s.current_raw_cov_file s.curr_coverage s.first = .ok (d, aug))
    (hi : 0 ≤ d.instruction_cov_delta) (hb : 0 ≤ d.branch_cov_delta)
    (hconti : (aug.instruction_covered : Int) =
      (s.curr_coverage.instruction_covered : Int) + d.instruction_cov_delta)
    (hcontb : (aug.branch_covered : Int) =
      (s.curr_coverage.branch_covered : Int) + d.branch_cov_delta) :
    s.curr_coverage.instruction_covered ≤
      (pass2Step gdc s t).curr_coverage.instruction_covered ∧
    s.curr_coverage.branch_covered ≤
      (pass2Step gdc s t).curr_coverage.branch_covered := by
  unfold pass2Step
  rw [if_neg (by simp [hc])]
  dsimp only
  rw [h]
  dsimp only
  unfold pass2Check
  dsimp only
  by_cases hpos : 0 < d.instruction_cov_delta ∨ 0 < d.branch_cov_delta
  · rw [if_pos hpos]
    constructor
    · dsimp only; omega
    · dsimp only; omega
  · rw [if_neg hpos]
    exact ⟨le_refl _, le_refl _⟩

/-- C4 witness: instantiation of the amended theorem on the initial state
with a positive-delta oracle whose totals satisfy the delta contract. -/
theorem pass2_accept_monotone_under_nonneg_deltas_witness :
    (pass2Init baseCov []).curr_coverage.instruction_covered ≤
      (pass2Step gdcPos (pass2Init baseCov []) "t1").curr_coverage.instruction_covered ∧
    (pass2Init baseCov []).curr_coverage.branch_covered ≤
      (pass2Step gdcPos (pass2Init baseCov []) "t1").curr_coverage.branch_covered :=
  pass2_accept_monotone_under_nonneg_deltas gdcPos (pass2Init baseCov []) "t1"
    posDelta augCov rfl rfl (by decide) (by decide) (by decide) (by decide)

/-- C5: evaluation of the pass-2 engine at concrete failing merges. When the
first visited candidate merge raises, reading the unassigned coverage_delta
raises an unhandled NameError (crashed) with the candidate left in the live
directory; when a later candidate merge raises after an accepted one, the
stale positive delta makes the engine accept the failed candidate, increment
the added count and leave it in the directory, instead of the logged
non-accept removal the spec requires. -/
theorem pass2_merge_failure_not_skipped :
    ((augment_ctd_test_suite gdcFailAll
        [("t1", { instruction_cov_delta := 1, branch_cov_delta := 1 })] baseCov
        []).crashed = true ∧
      (augment_ctd_test_suite gdcFailAll
        [("t1", { instruction_cov_delta := 1, branch_cov_delta := 1 })] baseCov
        []).dir = ["t1"]) ∧
    ((augment_ctd_test_suite gdcSecondFails twoGainEntries baseCov
        []).added_test_classes = 2 ∧
      (augment_ctd_test_suite gdcSecondFails twoGainEntries baseCov
        []).accepted = ["t1", "t2"] ∧
      "t2" ∈ (augment_ctd_test_suite gdcSecondFails twoGainEntries baseCov []).dir ∧
      (augment_ctd_test_suite gdcSecondFails twoGainEntries baseCov
        []).successLog = [true, false]) := by
  decide

/-- C6 counterexample: a pool whose single candidate carries the no-tests
sentinel still returns that candidate inside the built augmentation pool
(although it is never executed), contradicting the claim that it never
appears in the built pool. -/
theorem sentinel_candidate_remains_in_returned_pool :
    compute_base_and_augmenting_tests_coverage (some baseCov) 5
      [("SentTest", sentinelInfo)] =
      .ok { augmentation_test_pool := ["SentTest"], ctd_test_coverage := baseCov,
            has_coverage := false, executed := [] } := by
  rfl

/-- C6 (amended): a sentinel candidate is skipped before any execution of it
is attempted - it is never executed and cannot contribute to has_coverage -
but it remains inside the pool list returned by the pool-building phase (and
hence in the reported pool counts). -/
theorem sentinel_candidate_never_executed
    (ctdCov : Option CoverageTotals) (ctdCount : Nat)
    (pool : List (TestClass × CandidateInfo)) (r : BuilderResult)
    (t : TestClass) (info : CandidateInfo)
    (hnd : (pool.map Prod.fst).Nodup)
    (hmem : (t, info) ∈ pool) (hs : info.has_sentinel = true)
    (h : compute_base_and_augmenting_tests_coverage ctdCov ctdCount pool = .ok r) :
    t ∈ r.augmentation_test_pool ∧ t ∉ r.executed := by
  obtain ⟨hpool, hloop⟩ := builder_ok_inv h
  constructor
  · rw [hpool]
    exact List.mem_map_of_mem Prod.fst hmem
  · intro hexec
    obtain ⟨-, hex⟩ := builderLoop_spec pool false [] r.has_coverage r.executed hloop
    rcases hex t hexec with h2 | ⟨i2, hi2, hsent⟩
    · exact absurd h2 (List.not_mem_nil _)
    · have hi : i2 = info := nodup_keys_unique hnd hi2 hmem
      rw [hi, hs] at hsent
      exact absurd hsent (by simp)

/-- C6 witness: instantiation of the amended theorem on the singleton
sentinel pool. -/
theorem sentinel_candidate_never_executed_witness :
    "SentTest" ∈ (["SentTest"] : List TestClass) ∧
    "SentTest" ∉ ([] : List TestClass) :=
  sentinel_candidate_never_executed (some baseCov) 5 [("SentTest", sentinelInfo)]
    { augmentation_test_pool := ["SentTest"], ctd_test_coverage := baseCov,
      has_coverage := false, executed := [] } "SentTest" sentinelInfo
    (by decide) (by decide) rfl (by rfl)

/-- C7: in a completed pool-building run the has_coverage signal is true iff
some non-sentinel candidate of the pool has a coverage dict with a positive
covered-instruction count, and when the signal is false the top-level
augmentation reports the condition by returning False with no test added,
not by raising. -/
theorem has_coverage_iff_some_candidate_covers
    (gdc : GetDeltaCoverage) (ctdCov : Option CoverageTotals) (ctdCount fmc : Nat)
    (pool : List (TestClass × CandidateInfo)) (dir : List TestClass) (r : BuilderResult)
    (h : compute_base_and_augmenting_tests_coverage ctdCov ctdCount pool = .ok r) :
    (r.has_coverage = true ↔ ∃ p ∈ pool, p.2.has_sentinel = false ∧
        ∃ c, p.2.coverage = some c ∧ 0 < c.instruction_covered) ∧
    (r.has_coverage = false →
      augment_with_code_coverage gdc ctdCov ctdCount pool fmc dir =
        .ok { success := false, added_test_classes := 0, accepted := [] }) := by
  obtain ⟨hpool, hloop⟩ := builder_ok_inv h
  constructor
  · obtain ⟨hiff, -⟩ := builderLoop_spec pool false [] r.has_coverage r.executed hloop
    rw [hiff]
    simp
  · intro hfalse
    unfold augment_with_code_coverage
    rw [h]
    dsimp only
    rw [if_pos hfalse]

/-- C7 witness: instantiation on a singleton pool whose candidate covers
instructions. -/
theorem has_coverage_iff_some_candidate_covers_witness :
    (({ augmentation_test_pool := ["CovTest"], ctd_test_coverage := baseCov,
        has_coverage := true, executed := ["CovTest"] } : BuilderResult).has_coverage = true ↔
      ∃ p ∈ [("CovTest", coveringInfo)], p.2.has_sentinel = false ∧
        ∃ c, p.2.coverage = some c ∧ 0 < c.instruction_covered) :=
  (has_coverage_iff_some_candidate_covers gdcPos (some baseCov) 5 0
    [("CovTest", coveringInfo)] []
    { augmentation_test_pool := ["CovTest"], ctd_test_coverage := baseCov,
      has_coverage := true, executed := ["CovTest"] } (by rfl)).1

/-- C8 counterexample: in a run whose first merge succeeds but is rejected
(zero delta) and whose second merge is the first accepted one, the
remove_merged_cov_file instruction is passed on the first call and NOT on the
first accepted merge: clearing the flag is triggered by the first successful
merge, accepted or not. -/
theorem remove_flag_cleared_by_unaccepted_merge :
    (augment_ctd_test_suite gdcRejectFirst twoGainEntries baseCov
      []).flagsLog = [true, false] ∧
    (augment_ctd_test_suite gdcRejectFirst twoGainEntries baseCov
      []).acceptLog = [false, true] ∧
    (augment_ctd_test_suite gdcRejectFirst twoGainEntries baseCov
      []).successLog = [true, true] := by
  decide

/-- C8 (amended): the remove_merged_cov_file flag passed to the i-th pass-2
merge call is true exactly when every earlier merge call of the pass failed;
in particular when all merges succeed only the very first call of the pass
carries the deletion instruction, and every later call retains the
intermediate merged files. -/
theorem remove_flag_true_iff_no_earlier_success
    (gdc : GetDeltaCoverage) (m : List (TestClass × CoverageDelta))
    (base : CoverageTotals) (dir : List TestClass) (i : Nat) (b : Bool)
    (h : (augment_ctd_test_suite gdc m base dir).flagsLog[i]? = some b) :
    b = true ↔
      ∀ x ∈ (augment_ctd_test_suite gdc m base dir).successLog.take i, x = false := by
  have hinv := pass2_foldl_flagInv gdc (visit_order m) (pass2Init base dir)
    (pass2Init_flagInv base dir)
  exact hinv.2.2 i b h

/-- C8 witness: instantiation at call index 1 of the reject-first run, whose
flag is false because call 0 succeeded. -/
theorem remove_flag_true_iff_no_earlier_success_witness :
    (false = true ↔
      ∀ x ∈ (augment_ctd_test_suite gdcRejectFirst twoGainEntries baseCov
        []).successLog.take 1, x = false) :=
  remove_flag_true_iff_no_earlier_success gdcRejectFirst twoGainEntries baseCov [] 1 false
    (by decide)

/-- C9: with a zero test-method count the per-suite efficiency computation
stops with ZeroDivisionError instead of producing a value, a successful
efficiency value certifies a nonzero method count, and a top-level run whose
final summary would divide by a zero final method count can never return a
successful (True) result. -/
theorem efficiency_zero_method_count_signals_error :
    (∀ cov : CoverageTotals, compute_coverage_efficiency (some cov) 0 =
        .error PyError.zeroDivision) ∧
    (∀ (oc : Option CoverageTotals) (n : Nat) (x : CoverageTotals × Nat × Rat),
        compute_coverage_efficiency oc n = .ok (some x) → n ≠ 0) ∧
    (∀ (gdc : GetDeltaCoverage) (ctdCov : Option CoverageTotals) (ctdCount : Nat)
        (pool : List (TestClass × CandidateInfo)) (dir : List TestClass)
        (r : AugmentResult),
        augment_with_code_coverage gdc ctdCov ctdCount pool 0 dir = .ok r →
          r.success = false) := by
  refine ⟨cce_zero_count, ?_, ?_⟩
  · intro oc n x h
    obtain ⟨c2, k2, e2⟩ := x
    exact (cce_ok_some h).2.2.1
  · intro gdc ctdCov ctdCount pool dir r h
    unfold augment_with_code_coverage at h
    cases hbr : compute_base_and_augmenting_tests_coverage ctdCov ctdCount pool with
    | error e => rw [hbr] at h; exact absurd h (by simp)
    | ok br =>
        rw [hbr] at h
        dsimp only at h
        by_cases hhas : br.has_coverage = false
        · rw [if_pos hhas] at h
          have hr : AugmentResult.mk false 0 [] = r := Except.ok.inj h
          rw [← hr]
        · rw [if_neg hhas] at h
          split at h
          · exact absurd h (by simp)
          · split at h
            · exact absurd h (by simp)
            · simp only [Nat.cast_zero] at h
              unfold pyDiv at h
              rw [if_pos rfl] at h
              dsimp only at h
              exact absurd h (by simp)

/-- C9 witness: the error at zero method count on a concrete coverage dict,
and the nonzero-count certificate extracted from a concrete successful
computation. -/
theorem efficiency_zero_method_count_signals_error_witness :
    compute_coverage_efficiency (some baseCov) 0 = .error PyError.zeroDivision ∧
    (5 : Nat) ≠ 0 :=
  ⟨efficiency_zero_method_count_signals_error.1 baseCov,
    efficiency_zero_method_count_signals_error.2.1 (some baseCov) 5
      (baseCov, 5, (1 : Rat) / 10)
      (by simp [compute_coverage_efficiency, pyDiv, baseCov]; norm_num)⟩

/-- C10: pass 1 never mutates the live base test directory: over any oracle
and pool it performs no add or remove operation, and the directory contents it
returns are exactly the ones it was given. -/
theorem pass1_preserves_live_test_directory
    (gdc : GetDeltaCoverage) (pool : List TestClass) (base : CoverageTotals)
    (dir : List TestClass) :
    (compute_tests_with_coverage_gain gdc pool base dir).dir = dir ∧
    (compute_tests_with_coverage_gain gdc pool base dir).dirOps = [] := by
  unfold compute_tests_with_coverage_gain
  exact pass1_foldl_dir gdc base pool _

end Tkltest

